import Mathlib

/-!
Verification development for the Matrix framework's Keymaster server and
transport layer.  The definitions below embed the data model and the
operations of `src/src/Keymaster.cc`, `TransportServer.cc` and
`TransportClient.cc`.  External collaborators that are not part of the
repository sources (the yaml-cpp value tree and the `yaml_util` path
helpers, the `Time` clock and `strip_non_numeric`) are modelled from the
specification, as marked in the doc comments.
-/

/-- Modelled from the spec: the yaml-cpp value tree ("a recursive value:
one of scalar, ordered sequence of values, or keyed mapping from string
to value").  yaml-cpp itself is an external library; scalars are kept as
their string spelling. -/
inductive YNode where
  | scalar (s : String)
  | seq (items : List YNode)
  | map (entries : List (String × YNode))

instance : Inhabited YNode := ⟨YNode.scalar ""⟩

/-- Association-list lookup, first matching key wins (models `std::map`
lookup on the keys that occur). -/
def alookup {κ α : Type} [DecidableEq κ] : List (κ × α) → κ → Option α
  | [], _ => none
  | (k', v') :: rest, k => if k' = k then some v' else alookup rest k

/-- Association-list insert-or-replace (models `std::map::operator[]`
assignment). -/
def aupdate {κ α : Type} [DecidableEq κ] : List (κ × α) → κ → α → List (κ × α)
  | [], k, v => [(k, v)]
  | (k', v') :: rest, k, v =>
      if k' = k then (k, v) :: rest else (k', v') :: aupdate rest k v

/-- Association-list removal of a key (models `std::map::erase`). -/
def aremove {κ α : Type} [DecidableEq κ] (m : List (κ × α)) (k : κ) : List (κ × α) :=
  m.filter (fun kv => kv.1 ≠ k)

/-- Modelled from the spec: `get_yaml_node` of the missing `yaml_util`
unit, on an already-split path.  "get(path) → value | NotFound"; the
empty path denotes the root; descent goes through keyed mappings. -/
def getNodeSegs : YNode → List String → Option YNode
  | t, [] => some t
  | YNode.map m, k :: ks =>
      match alookup m k with
      | some c => getNodeSegs c ks
      | none => none
  | _, _ :: _ => none

/-- Modelled from the spec: `put_yaml_node` of the missing `yaml_util`
unit, on an already-split path.  "put(path, value, create) sets the value
at the path, failing with NotFound when any intermediate node is missing
unless create is true, in which case missing intermediates are created as
empty mappings" (a non-mapping node standing in the way is likewise
replaced by a fresh mapping when create is requested). -/
def putNodeSegs : YNode → List String → YNode → Bool → Option YNode
  | _, [], v, _ => some v
  | YNode.map m, k :: ks, v, create =>
      match alookup m k with
      | some c => (putNodeSegs c ks v create).map (fun c' => YNode.map (aupdate m k c'))
      | none =>
          if create then
            (putNodeSegs (YNode.map []) ks v create).map
              (fun c' => YNode.map (aupdate m k c'))
          else none
  | _, k :: ks, v, create =>
      if create then
        (putNodeSegs (YNode.map []) ks v create).map (fun c' => YNode.map [(k, c')])
      else none

/-- Modelled from the spec: `delete_yaml_node` of the missing `yaml_util`
unit, on an already-split path.  "delete(path) → ok | NotFound"; delete of
a non-existent path fails and leaves the tree unchanged. -/
def delNodeSegs : YNode → List String → Option YNode
  | _, [] => none
  | YNode.map m, [k] =>
      match alookup m k with
      | some _ => some (YNode.map (aremove m k))
      | none => none
  | YNode.map m, k :: k' :: ks =>
      match alookup m k with
      | some c => (delNodeSegs c (k' :: ks)).map (fun c' => YNode.map (aupdate m k c'))
      | none => none
  | _, _ :: _ => none

/-- Modelled from the spec: the serialization of a value tree that the
server ships on the wire (`yr << node`, the yaml-cpp emitter, an external
library).  Any function of the node works for the claims; a simple
unambiguous rendering is used. -/
def serialize : YNode → String
  | .scalar s => "s:" ++ s
  | .seq l => "[" ++ String.intercalate "," (l.attach.map (fun x => serialize x.1)) ++ "]"
  | .map m =>
      "(" ++ String.intercalate ","
        (m.attach.map (fun kv => kv.1.1 ++ "=" ++ serialize kv.1.2)) ++ ")"
termination_by n => sizeOf n
decreasing_by
  · have := List.sizeOf_lt_of_mem x.2
    simp only [YNode.seq.sizeOf_spec]
    omega
  · have h1 := List.sizeOf_lt_of_mem kv.2
    have h2 : sizeOf kv.1.2 < sizeOf kv.1 := by
      obtain ⟨a, b⟩ := kv.1
      simp
    simp only [YNode.map.sizeOf_spec]
    omega

/-- `boost::algorithm::join(v, ".")` as used by
`KeymasterServer::KmImpl::publish` (Keymaster.cc:859). -/
def joinDots : List String → String
  | [] => ""
  | [k] => k
  | k :: k' :: ks => k ++ "." ++ joinDots (k' :: ks)

/-- Splitting a character list on a delimiter, keeping empty tokens, the
semantics of `boost::split(v, s, boost::is_any_of(d))` for a
one-character delimiter set. -/
def splitChars (delim : Char) : List Char → List Char → List String
  | [], acc => [String.mk acc]
  | c :: cs, acc =>
      if c = delim then String.mk acc :: splitChars delim cs []
      else splitChars delim cs (acc ++ [c])

/-- Path splitting for a dotted keychain, `boost::split(keys, key,
boost::is_any_of("."))` (Keymaster.cc:854). -/
def splitDots (key : String) : List String := splitChars '.' key.toList []

/-- URL splitting on colons, `boost::split(parts, url, boost::is_any_of(":"))`
(Keymaster.cc:351, TransportClient.cc). -/
def splitColons (url : String) : List String := splitChars ':' url.toList []

/-- One candidate publication for the `i`-th prefix of the split key in
`KeymasterServer::KmImpl::publish` (Keymaster.cc:857-879): look the prefix
up in the tree; when found, the enqueued message pairs the prefix (joined
with dots) with the serialization of the node found there. -/
def publishEntry (t : YNode) (ks : List String) (i : Nat) : Option (String × String) :=
  (getNodeSegs t (ks.take (i + 1))).map
    (fun n => (joinDots (ks.take (i + 1)), serialize n))

/-- `KeymasterServer::KmImpl::publish` (Keymaster.cc:834-890): the list of
(topic, payload) messages placed on the publication queue for a change at
`key`.  An empty key publishes the whole tree under the topic "Root";
otherwise the key is split on dots and each prefix that resolves in the
tree is published.  The queue is modelled as unbounded (the 1000-slot
`tsemfifo` and its non-blocking overflow drop are a resource concern
outside this embedding). -/
def publishList (t : YNode) (key : String) : List (String × String) :=
  if key = "" then [("Root", serialize t)]
  else (List.range (splitDots key).length).filterMap (publishEntry t (splitDots key))

/-- Modelled from the spec: `get_yaml_node` of the missing `yaml_util`
unit on a dotted keychain; the empty keychain denotes the root. -/
def get_yaml_node (t : YNode) (keychain : String) : Option YNode :=
  if keychain = "" then some t else getNodeSegs t (splitDots keychain)

/-- Modelled from the spec: `put_yaml_node` of the missing `yaml_util`
unit on a dotted keychain; the empty keychain denotes the root. -/
def put_yaml_node (t : YNode) (keychain : String) (v : YNode) (create : Bool) :
    Option YNode :=
  if keychain = "" then some v else putNodeSegs t (splitDots keychain) v create

/-- Modelled from the spec: `delete_yaml_node` of the missing `yaml_util`
unit on a dotted keychain. -/
def delete_yaml_node (t : YNode) (keychain : String) : Option YNode :=
  delNodeSegs t (splitDots keychain)

/-- Reply-and-publication outcome of one state-manager request: the tree
after the request, the `result` flag of the `yaml_result` reply record,
and the messages handed to the publisher queue. -/
structure SMReply where
  tree : YNode
  ok : Bool
  msgs : List (String × String)

/-- The GET branch of `KeymasterServer::KmImpl::state_manager_task`
(Keymaster.cc:640-663): the keychain "Root" is remapped to the empty
keychain; the reply carries the node found, or result `false`. -/
def kmGet (t : YNode) (keychain : String) : Bool × Option YNode :=
  let kc := if keychain = "Root" then "" else keychain
  match get_yaml_node t kc with
  | some n => (true, some n)
  | none => (false, none)

/-- The PUT branch of `KeymasterServer::KmImpl::state_manager_task`
(Keymaster.cc:665-698): the keychain "Root" is remapped to the empty
keychain; on a successful mutation `publish(keychain)` is called, on a
failed one nothing is published and the tree is unchanged. -/
def kmPut (t : YNode) (keychain : String) (v : YNode) (create : Bool) : SMReply :=
  let kc := if keychain = "Root" then "" else keychain
  match put_yaml_node t kc v create with
  | some t' => ⟨t', true, publishList t' kc⟩
  | none => ⟨t, false, []⟩

/-- The DEL branch of `KeymasterServer::KmImpl::state_manager_task`
(Keymaster.cc:724-746): no "Root" remapping; on success
`publish(keychain, true)` is called, on failure the reply record has
result `false` and nothing is published. -/
def kmDel (t : YNode) (keychain : String) : SMReply :=
  match delete_yaml_node t keychain with
  | some t' => ⟨t', true, publishList t' keychain⟩
  | none => ⟨t, false, []⟩

/-- The `unsigned int` modulus: `put_counter` and the local
`clone_interval` of the state manager are 32-bit unsigned. -/
def UINT_MOD : Nat := 2 ^ 32

/-- The effective clone interval of the state manager: the local
`unsigned int clone_interval(1000)` (Keymaster.cc:524) is overridden by
the configured value when it is nonzero (Keymaster.cc:596-599).  The
configured `_clone_interval` is the `int` read from
`Keymaster.clone_interval` (Keymaster.cc:338); the assignment converts it
to `unsigned int`, i.e. reduces it modulo 2^32. -/
def effCloneInterval (c : Int) : Nat :=
  if c ≠ 0 then (c % (UINT_MOD : Int)).toNat else 1000

/-- The state-manager data that the PUT branch touches: the live root and
the `put_counter`. -/
structure SMState where
  tree : YNode
  putCounter : Nat

/-- Outcome of one well-formed PUT request at the state manager: updated
state, the reply's result flag, the published messages, and whether the
request triggered the periodic root clone. -/
structure PutStepOut where
  state : SMState
  ok : Bool
  msgs : List (String × String)
  cloned : Bool

/-- The PUT branch of `state_manager_task` including the clone logic
(Keymaster.cc:665-716): the put is performed and published on success;
then `++put_counter % clone_interval == 0` decides whether the live root
is replaced by a deep clone.  The counter increments on every well-formed
PUT request, successful or not; the clone is value-preserving, so the
tree is unchanged by it in this embedding. -/
def smPutStep (interval : Nat) (s : SMState) (kc : String) (v : YNode)
    (create : Bool) : PutStepOut :=
  let r := kmPut s.tree kc v create
  let c' := (s.putCounter + 1) % UINT_MOD
  ⟨⟨r.tree, c'⟩, r.ok, r.msgs, c' % interval == 0⟩

/-- Running the state manager over a sequence of well-formed PUT requests,
recording for each the (result, cloned) pair. -/
def smRunPuts (interval : Nat) (s : SMState) :
    List (String × YNode × Bool) → List (Bool × Bool)
  | [] => []
  | (kc, v, create) :: rs =>
      let o := smPutStep interval s kc v create
      (o.ok, o.cloned) :: smRunPuts interval o.state rs

/-- Substring test, the semantics of `std::string::find(pat) != npos` as
used throughout `setup_urls`. -/
def containsSub (s pat : String) : Bool :=
  s.toList.tails.any (fun t => pat.toList.isPrefixOf t)

/-- Lowercasing, `transform(..., ::tolower)` (Keymaster.cc:343). -/
def strToLower (s : String) : String := String.mk (s.toList.map Char.toLower)

/-- Modelled from the spec: `mxutils::strip_non_numeric` is declared in
`matrix_util.h` but its body is not under src/; it keeps the numeric
characters of the string. -/
def strip_non_numeric (s : String) : String :=
  String.mk (s.toList.filter Char.isDigit)

/-- Digit-string evaluation, the behavior of `stoi` on the all-digit
strings produced by `strip_non_numeric`. -/
def digitsVal : List Char → Nat → Nat
  | [], acc => acc
  | c :: cs, acc => digitsVal cs (acc * 10 + (c.toNat - '0'.toNat))

/-- `mxutils::convert<int>` (matrix_util.h): `stoi(strip_non_numeric(s))`,
on the digit-bearing port fields the server applies it to. -/
def convertInt (s : String) : Nat := digitsVal (strip_non_numeric s).toList 0

/-- One loop body of `KeymasterServer::KmImpl::setup_urls`
(Keymaster.cc:340-371): the publish URL derived from one lowercased
initial URL, or `none` for the "Unrecognized URL" error.  A URL
containing the substring "tcp" yields `tcp://*:<port+1>` with the port
parsed from the last colon-separated field; otherwise one containing
"ipc" or "inproc" yields the URL with ".publisher" appended; anything
else makes the constructor throw. -/
def derivePub (lc : String) : Option String :=
  if containsSub lc "tcp" then
    some ("tcp://*:" ++ toString (convertInt ((splitColons lc).getLastD "") + 1))
  else if containsSub lc "ipc" then some (lc ++ ".publisher")
  else if containsSub lc "inproc" then some (lc ++ ".publisher")
  else none

/-- The publish URLs derived for a list of lowercased initial URLs;
`none` as soon as one URL is unrecognized (the constructor throws). -/
def derivedPubs : List String → Option (List String)
  | [] => some []
  | u :: us =>
      match derivePub u with
      | some p => (derivedPubs us).map (p :: ·)
      | none => none

/-- The state-service and publish-service URL lists built by
`setup_urls`. -/
structure UrlConfig where
  state : List String
  pub : List String

/-- `KeymasterServer::KmImpl::setup_urls` (Keymaster.cc:332-380): each
initial URL is lowercased and kept as a state-service URL, and a publish
URL is derived from it; if no state-service URL contains the substring
"inproc", a generated `inproc://` URL is appended just for the state
task.  `rnd` stands for the `gen_random_string(20)` output. -/
def setup_urls (urls : List String) (rnd : String) : Option UrlConfig :=
  let lcs := urls.map strToLower
  match derivedPubs lcs with
  | none => none
  | some pubs =>
      some ⟨if lcs.any (fun u => containsSub u "inproc") then lcs
            else lcs ++ ["inproc://" ++ rnd], pubs⟩

/-- Modelled from the spec: `Time::Time_t` is the "current UTC time in
nanoseconds" (`Time.h` is not under src/), as an unbounded count;
`one_sec` is the constant of Keymaster.cc:782. -/
def one_sec : Nat := 1000000000

/-- The `wake_time` of the k-th pass of
`KeymasterServer::KmImpl::heartbeat_task` (Keymaster.cc:776-817): it
starts at `getUTC() + one_sec` and advances by `one_sec` each pass, and
its value `t` is what the pass writes. -/
def hbWake (start : Nat) : Nat → Nat
  | 0 => start + one_sec
  | k + 1 => hbWake start k + one_sec

/-- The four frames the heartbeat task sends on its k-th pass: the
command "PUT", the key "Keymaster.heartbeat", the value `to_string(t)`
and the flag "create" (Keymaster.cc:781, 796-804). -/
def hbFrames (start : Nat) (k : Nat) : List String :=
  ["PUT", "Keymaster.heartbeat", toString (hbWake start k), "create"]

/-- The per-thread data of `Keymaster::_put_task` (Keymaster.cc:1735-1774):
the memo of the last value written per key, and the `create` local, which
persists across loop iterations. -/
structure PutTaskState where
  memo : List (String × String)
  create : Bool

/-- One iteration of `Keymaster::_put_task` on a dequeued
(key, message, create?) tuple: when the memoized last value for the key
equals the message, the iteration `continue`s without an RPC; otherwise
the memo is updated and a PUT RPC (key, message, create) is issued.  For
a known key with a new value the create flag is cleared; for a new key it
is set when the tuple requests it and otherwise keeps its previous
value, as in the source. -/
def putTaskStep (s : PutTaskState) (req : String × String × Bool) :
    PutTaskState × Option (String × String × Bool) :=
  match alookup s.memo req.1 with
  | some m =>
      if m = req.2.1 then (s, none)
      else (⟨aupdate s.memo req.1 req.2.1, false⟩, some (req.1, req.2.1, false))
  | none =>
      let create := if req.2.2 then true else s.create
      (⟨aupdate s.memo req.1 req.2.1, create⟩, some (req.1, req.2.1, create))

/-- Draining a queue of tuples through `_put_task`, collecting the PUT
RPCs sent to the server in order. -/
def putTaskRun (s : PutTaskState) :
    List (String × String × Bool) → PutTaskState × List (String × String × Bool)
  | [] => (s, [])
  | req :: reqs =>
      let out := putTaskStep s req
      let rest := putTaskRun out.1 reqs
      (rest.1, match out.2 with | some r => r :: rest.2 | none => rest.2)

/-- Reference count of an instance id in the refcount table. -/
def rcGet (rc : List (Nat × Nat)) (id : Nat) : Nat := (alookup rc id).getD 0

/-- Update of the refcount table. -/
def rcSet (rc : List (Nat × Nat)) (id n : Nat) : List (Nat × Nat) := aupdate rc id n

/-- The process-global `TransportClient::transports` registry
(TransportClient.cc:44): urn → shared instance, together with a table of
the `shared_ptr` use counts of the instances (registry copy plus consumer
copies) and an allocator of fresh instance ids. -/
structure ClientReg where
  entries : List (String × Nat)
  refc : List (Nat × Nat)
  nextId : Nat

/-- `TransportClient::get_transport` (TransportClient.cc:62-75): return
the registry's instance for the urn, constructing and inserting one first
when absent.  The copy handed to the consumer raises the use count; a
fresh instance starts with use count 2 (registry + consumer). -/
def TransportClient.get_transport (r : ClientReg) (urn : String) : ClientReg × Nat :=
  match alookup r.entries urn with
  | some id => ({ r with refc := rcSet r.refc id (rcGet r.refc id + 1) }, id)
  | none =>
      let id := r.nextId
      (⟨aupdate r.entries urn id, rcSet r.refc id 2, id + 1⟩, id)

/-- `TransportClient::release_transport` (TransportClient.cc:94-110): when
the urn has an entry, the registry's own reference is dropped — by
`reset()` when it is unique (destroying the instance) or by the map
erase otherwise — and the entry is erased from the map unconditionally:
the `transports.erase(cmi)` sits outside the `unique()` check.  Either
way the instance's use count falls by exactly one. -/
def TransportClient.release_transport (r : ClientReg) (urn : String) : ClientReg :=
  match alookup r.entries urn with
  | none => r
  | some id =>
      { r with refc := rcSet r.refc id (rcGet r.refc id - 1),
               entries := aremove r.entries urn }

/-- A consumer's release protocol (per the comment above
`release_transport`): the consumer resets its own `shared_ptr` copy of
instance `id`, then calls `release_transport`. -/
def TransportClient.consumerRelease (r : ClientReg) (urn : String) (id : Nat) :
    ClientReg :=
  TransportClient.release_transport
    { r with refc := rcSet r.refc id (rcGet r.refc id - 1) } urn

/-- The process-global `TransportServer::transports` registry
(TransportServer.cc): component name → transport name → shared instance,
with the same use-count bookkeeping as the client registry. -/
structure ServerReg where
  entries : List (String × List (String × Nat))
  refc : List (Nat × Nat)
  nextId : Nat

/-- `TransportServer::get_transport` (TransportServer.cc, hello_world.yaml
part lines 131-160): ensure the component's submap exists, then return
its instance for the transport name, constructing and inserting one first
when absent.  Creation itself (`TransportServer::create`) is modelled
separately; here it only allocates a fresh instance. -/
def TransportServer.get_transport (r : ServerReg) (comp trans : String) :
    ServerReg × Nat :=
  let sub := (alookup r.entries comp).getD []
  match alookup sub trans with
  | some id =>
      ({ r with entries := aupdate r.entries comp sub,
                refc := rcSet r.refc id (rcGet r.refc id + 1) }, id)
  | none =>
      let id := r.nextId
      (⟨aupdate r.entries comp (aupdate sub trans id),
        rcSet r.refc id 2, id + 1⟩, id)

/-- `TransportServer::release_transport` (TransportServer.cc,
hello_world.yaml part lines 178-201): when the (component, transport)
entry exists, the registry's reference is dropped (`reset()` when unique,
destroying the instance, or the erase otherwise) and the entry is erased
from the submap unconditionally — the `cmi->second.erase(tmi)` sits
outside the `unique()` check. -/
def TransportServer.release_transport (r : ServerReg) (comp trans : String) :
    ServerReg :=
  match alookup r.entries comp with
  | none => r
  | some sub =>
      match alookup sub trans with
      | none => r
      | some id =>
          { r with refc := rcSet r.refc id (rcGet r.refc id - 1),
                   entries := aupdate r.entries comp (aremove sub trans) }

/-- A consumer's release protocol on the server registry: reset the own
`shared_ptr` copy of instance `id`, then call `release_transport`. -/
def TransportServer.consumerRelease (r : ServerReg) (comp trans : String)
    (id : Nat) : ServerReg :=
  TransportServer.release_transport
    { r with refc := rcSet r.refc id (rcGet r.refc id - 1) } comp trans

/-- `TransportServer::create` (TransportServer.cc, hello_world.yaml part
lines 230-264): each entry of the component's `Specified` list is
resolved in the factory map; when the resolved list is shorter than the
request (an unregistered scheme) a `CreationError` "Not all transports
supported." is thrown, and when the resolved factories are not all equal
a `CreationError` "Some transports have different factories." is thrown;
otherwise the common factory builds the instance.  Factories are
identified by `Nat` tags and the instance built from factory `f` is
represented by `f`. -/
def TransportServer.create (factories : List (String × Nat))
    (specified : List String) : Except String Nat :=
  let facts := specified.filterMap (fun t => alookup factories t)
  if facts.length ≠ specified.length then
    Except.error "Not all transports supported."
  else if (facts.all (fun f => f == facts.headD 0)) = false then
    Except.error "Some transports have different factories."
  else Except.ok (facts.headD 0)

/-- `TransportClient::create` (TransportClient.cc:122-144): the urn is
split on colons and its first field (the scheme) is looked up in the
factory map; an unregistered scheme throws `CreationError`
"No known factory ..."; otherwise the factory builds the instance. -/
def TransportClient.create (factories : List (String × Nat)) (urn : String) :
    Except String Nat :=
  match splitColons urn with
  | [] => Except.error ("Malformed URN " ++ urn)
  | scheme :: _ =>
      match alookup factories scheme with
      | some f => Except.ok f
      | none => Except.error ("No known factory for " ++ scheme)

/-- Whether an `Except` result is a success (no exception escaped). -/
def isOkE {ε α : Type} : Except ε α → Bool
  | Except.ok _ => true
  | Except.error _ => false

/-- Whether a URL is an `inproc://` endpoint, i.e. its scheme is inproc
(as opposed to merely containing "inproc" somewhere, which is all
`setup_urls` tests for). -/
def isInprocEndpoint (u : String) : Bool :=
  "inproc://".toList.isPrefixOf u.toList

theorem alookup_aupdate_self {κ α : Type} [DecidableEq κ] (m : List (κ × α))
    (k : κ) (v : α) : alookup (aupdate m k v) k = some v := by
  induction m with
  | nil => simp [aupdate, alookup]
  | cons kv rest ih =>
      obtain ⟨k', v'⟩ := kv
      by_cases h : k' = k
      · simp [aupdate, h, alookup]
      · simp [aupdate, h, alookup, ih]

theorem alookup_aremove_self {κ α : Type} [DecidableEq κ] (m : List (κ × α))
    (k : κ) : alookup (aremove m k) k = none := by
  induction m with
  | nil => simp [aremove, alookup]
  | cons kv rest ih =>
      obtain ⟨k', v'⟩ := kv
      by_cases h : k' = k
      · simpa [aremove, List.filter_cons, h] using ih
      · simpa [aremove, List.filter_cons, h, alookup] using ih

@[simp]
theorem getNodeSegs_nil (t : YNode) : getNodeSegs t [] = some t := by
  cases t <;> rfl

theorem getNodeSegs_putNodeSegs {ks : List String} :
    ∀ {t t' v : YNode} {cr : Bool}, putNodeSegs t ks v cr = some t' →
      getNodeSegs t' ks = some v := by
  induction ks with
  | nil =>
      intro t t' v cr h
      simp only [putNodeSegs, Option.some.injEq] at h
      subst h
      simp
  | cons k ks ih =>
      intro t t' v cr h
      cases t with
      | map m =>
          simp only [putNodeSegs] at h
          cases hl : alookup m k with
          | some c =>
              rw [hl] at h
              simp only [Option.map_eq_some'] at h
              obtain ⟨c', hp, ht⟩ := h
              subst ht
              simp [getNodeSegs, alookup_aupdate_self, ih hp]
          | none =>
              rw [hl] at h
              cases cr with
              | false => simp at h
              | true =>
                  simp only [if_pos, Option.map_eq_some'] at h
                  obtain ⟨c', hp, ht⟩ := h
                  subst ht
                  simp [getNodeSegs, alookup_aupdate_self, ih hp]
      | scalar s =>
          simp only [putNodeSegs] at h
          cases cr with
          | false => simp at h
          | true =>
              simp only [if_pos, Option.map_eq_some'] at h
              obtain ⟨c', hp, ht⟩ := h
              subst ht
              simp [getNodeSegs, alookup, ih hp]
      | seq l =>
          simp only [putNodeSegs] at h
          cases cr with
          | false => simp at h
          | true =>
              simp only [if_pos, Option.map_eq_some'] at h
              obtain ⟨c', hp, ht⟩ := h
              subst ht
              simp [getNodeSegs, alookup, ih hp]

theorem putNodeSegs_cons {k : String} {ks : List String} {t t' v : YNode}
    {cr : Bool} (h : putNodeSegs t (k :: ks) v cr = some t') :
    ∃ t0 c' m', putNodeSegs t0 ks v cr = some c' ∧ alookup m' k = some c' ∧
      t' = YNode.map m' := by
  cases t with
  | map m =>
      simp only [putNodeSegs] at h
      cases hl : alookup m k with
      | some c =>
          rw [hl] at h
          simp only [Option.map_eq_some'] at h
          obtain ⟨c', hp, ht⟩ := h
          exact ⟨c, c', aupdate m k c', hp, alookup_aupdate_self m k c', ht.symm⟩
      | none =>
          rw [hl] at h
          cases cr with
          | false => simp at h
          | true =>
              simp only [if_pos, Option.map_eq_some'] at h
              obtain ⟨c', hp, ht⟩ := h
              exact ⟨YNode.map [], c', aupdate m k c', hp,
                     alookup_aupdate_self m k c', ht.symm⟩
  | scalar s =>
      simp only [putNodeSegs] at h
      cases cr with
      | false => simp at h
      | true =>
          simp only [if_pos, Option.map_eq_some'] at h
          obtain ⟨c', hp, ht⟩ := h
          exact ⟨YNode.map [], c', [(k, c')], hp, by simp [alookup], ht.symm⟩
  | seq l =>
      simp only [putNodeSegs] at h
      cases cr with
      | false => simp at h
      | true =>
          simp only [if_pos, Option.map_eq_some'] at h
          obtain ⟨c', hp, ht⟩ := h
          exact ⟨YNode.map [], c', [(k, c')], hp, by simp [alookup], ht.symm⟩

theorem getNodeSegs_putNodeSegs_take {ks : List String} :
    ∀ {t t' v : YNode} {cr : Bool} (i : Nat),
      putNodeSegs t ks v cr = some t' →
      (getNodeSegs t' (ks.take i)).isSome := by
  induction ks with
  | nil =>
      intro t t' v cr i _
      simp
  | cons k ks ih =>
      intro t t' v cr i h
      obtain ⟨t0, c', m', hp, hl, ht⟩ := putNodeSegs_cons h
      subst ht
      cases i with
      | zero => simp
      | succ j =>
          simp only [List.take_succ_cons, getNodeSegs, hl]
          exact ih j hp

theorem putNodeSegs_create_isSome {ks : List String} :
    ∀ {t v : YNode}, (putNodeSegs t ks v true).isSome := by
  induction ks with
  | nil => intro t v; simp [putNodeSegs]
  | cons k ks ih =>
      intro t v
      cases t with
      | map m =>
          simp only [putNodeSegs]
          cases hl : alookup m k with
          | some c => simpa using ih
          | none => simpa using ih
      | scalar s => simpa [putNodeSegs] using ih
      | seq l => simpa [putNodeSegs] using ih

theorem putNodeSegs_of_getNodeSegs {ks : List String} :
    ∀ {t u : YNode} (v : YNode), getNodeSegs t ks = some u →
      (putNodeSegs t ks v false).isSome := by
  induction ks with
  | nil => intro t u v _; simp [putNodeSegs]
  | cons k ks ih =>
      intro t u v h
      cases t with
      | map m =>
          simp only [getNodeSegs] at h
          cases hl : alookup m k with
          | some c =>
              rw [hl] at h
              simp only [putNodeSegs, hl]
              simpa using ih v h
          | none => rw [hl] at h; simp at h
      | scalar s => simp [getNodeSegs] at h
      | seq l => simp [getNodeSegs] at h

theorem delNodeSegs_single {k : String} {t t' : YNode}
    (h : delNodeSegs t [k] = some t') :
    ∃ m, t = YNode.map m ∧ (alookup m k).isSome ∧ t' = YNode.map (aremove m k) := by
  cases t with
  | map m =>
      simp only [delNodeSegs] at h
      cases hl : alookup m k with
      | some c =>
          rw [hl] at h
          simp only [Option.some.injEq] at h
          exact ⟨m, rfl, by simp [hl], h.symm⟩
      | none => rw [hl] at h; simp at h
  | scalar s => simp [delNodeSegs] at h
  | seq l => simp [delNodeSegs] at h

theorem delNodeSegs_cons2 {k k' : String} {ks : List String} {t t' : YNode}
    (h : delNodeSegs t (k :: k' :: ks) = some t') :
    ∃ m c c', t = YNode.map m ∧ alookup m k = some c ∧
      delNodeSegs c (k' :: ks) = some c' ∧ t' = YNode.map (aupdate m k c') := by
  cases t with
  | map m =>
      simp only [delNodeSegs] at h
      cases hl : alookup m k with
      | some c =>
          rw [hl] at h
          simp only [Option.map_eq_some'] at h
          obtain ⟨c', hd, ht⟩ := h
          exact ⟨m, c, c', rfl, hl, hd, ht.symm⟩
      | none => rw [hl] at h; simp at h
  | scalar s => simp [delNodeSegs] at h
  | seq l => simp [delNodeSegs] at h

theorem getNodeSegs_delNodeSegs_gone {ks : List String} :
    ∀ {t t' : YNode}, delNodeSegs t ks = some t' → getNodeSegs t' ks = none := by
  induction ks with
  | nil => intro t t' h; simp [delNodeSegs] at h
  | cons k rest ih =>
      intro t t' h
      cases rest with
      | nil =>
          obtain ⟨m, _, _, ht⟩ := delNodeSegs_single h
          subst ht
          simp [getNodeSegs, alookup_aremove_self]
      | cons k' ks' =>
          obtain ⟨m, c, c', _, _, hd, ht⟩ := delNodeSegs_cons2 h
          subst ht
          simp [getNodeSegs, alookup_aupdate_self, ih hd]

theorem getNodeSegs_delNodeSegs_take {ks : List String} :
    ∀ {t t' : YNode} (i : Nat), i < ks.length → delNodeSegs t ks = some t' →
      (getNodeSegs t' (ks.take i)).isSome := by
  induction ks with
  | nil => intro t t' i hi _; simp at hi
  | cons k rest ih =>
      intro t t' i hi h
      cases i with
      | zero => simp
      | succ j =>
          cases rest with
          | nil => simp at hi
          | cons k' ks' =>
              obtain ⟨m, c, c', _, _, hd, ht⟩ := delNodeSegs_cons2 h
              subst ht
              simp only [List.take_succ_cons, getNodeSegs, alookup_aupdate_self]
              exact ih j (by simpa using hi) hd

theorem filterMap_range_eq_map {β : Type} (f : Nat → Option β) (d : β) (n : Nat)
    (h : ∀ i, i < n → (f i).isSome) :
    (List.range n).filterMap f = (List.range n).map (fun i => (f i).getD d) := by
  induction n with
  | zero => simp
  | succ n ih =>
      rw [List.range_succ, List.filterMap_append, List.map_append,
          ih (fun i hi => h i (Nat.lt_succ_of_lt hi))]
      congr 1
      cases hf : f n with
      | some b => simp [hf]
      | none =>
          have := h n (Nat.lt_succ_self n)
          rw [hf] at this
          simp at this

theorem filterMap_range_succ_last_none {β : Type} (f : Nat → Option β) (d : β)
    (n : Nat) (h : ∀ i, i < n → (f i).isSome) (hn : f n = none) :
    (List.range (n + 1)).filterMap f = (List.range n).map (fun i => (f i).getD d) := by
  rw [List.range_succ, List.filterMap_append, filterMap_range_eq_map f d n h]
  simp [hn]

theorem joinDots_cons_of_ne (k : String) {l : List String} (h : l ≠ []) :
    joinDots (k :: l) = k ++ "." ++ joinDots l := by
  cases l with
  | nil => exact absurd rfl h
  | cons k' l' => rfl

theorem joinDots_length_lt {ks : List String} :
    ∀ {i : Nat}, 0 < i → i < ks.length →
      (joinDots (ks.take i)).length < (joinDots ks).length := by
  induction ks with
  | nil => intro i _ hi; simp at hi
  | cons k rest ih =>
      intro i hpos hi
      cases i with
      | zero => simp at hpos
      | succ j =>
          have hrest : rest ≠ [] := by
            intro hr
            rw [hr] at hi
            simp at hi
          rw [List.take_succ_cons, joinDots_cons_of_ne k hrest]
          cases Nat.eq_zero_or_pos j with
          | inl hj =>
              subst hj
              simp only [List.take_zero, joinDots]
              rw [String.length_append, String.length_append]
              have : ("." : String).length = 1 := rfl
              omega
          | inr hj =>
              have hjlen : j < rest.length := by
                simp only [List.length_cons] at hi
                omega
              have htne : rest.take j ≠ [] := by
                intro hr
                have hlen := congrArg List.length hr
                rw [List.length_take] at hlen
                simp only [List.length_nil, Nat.min_eq_zero_iff] at hlen
                omega
              rw [joinDots_cons_of_ne k htne, String.length_append,
                  String.length_append, String.length_append, String.length_append]
              have := ih hj hjlen
              omega

theorem joinDots_take_length_lt {ks : List String} {i j : Nat} (hpos : 0 < i)
    (hij : i < j) (hj : j ≤ ks.length) :
    (joinDots (ks.take i)).length < (joinDots (ks.take j)).length := by
  have h1 : ks.take i = (ks.take j).take i := by
    rw [List.take_take]
    congr 1
    omega
  rw [h1]
  exact joinDots_length_lt hpos (by rw [List.length_take]; omega)

/-- Claim C2: for any path p and value v, performing put(p, v) with the
create flag set and then get(p) on the same tree returns v; this holds
for every freshly loaded tree, and also without the create flag whenever
p already exists. -/
theorem c2_get_after_put (t : YNode) (kc : String) (v : YNode) :
    ((kmPut t kc v true).ok = true ∧
      kmGet (kmPut t kc v true).tree kc = (true, some v)) ∧
    ((kmGet t kc).1 = true →
      (kmPut t kc v false).ok = true ∧
      kmGet (kmPut t kc v false).tree kc = (true, some v)) := by
  simp only [kmPut, kmGet, put_yaml_node, get_yaml_node]
  by_cases hroot : kc = "Root"
  · simp [hroot]
  · simp only [if_neg hroot]
    by_cases hemp : kc = ""
    · simp [hemp]
    · simp only [if_neg hemp]
      constructor
      · have hs := @putNodeSegs_create_isSome (splitDots kc) t v
        obtain ⟨t', ht'⟩ := Option.isSome_iff_exists.mp hs
        rw [ht']
        exact ⟨rfl, by rw [getNodeSegs_putNodeSegs ht']⟩
      · intro hget
        cases hg : getNodeSegs t (splitDots kc) with
        | none => rw [hg] at hget; simp at hget
        | some u =>
            have hs := putNodeSegs_of_getNodeSegs v hg
            obtain ⟨t', ht'⟩ := Option.isSome_iff_exists.mp hs
            rw [ht']
            exact ⟨rfl, by rw [getNodeSegs_putNodeSegs ht']⟩

theorem c2_get_after_put_witness :
    ((kmPut (YNode.map []) "a.b" (YNode.scalar "42") true).ok = true ∧
      kmGet (kmPut (YNode.map []) "a.b" (YNode.scalar "42") true).tree "a.b" =
        (true, some (YNode.scalar "42"))) ∧
    ((kmGet (YNode.map [("a", YNode.map [("b", YNode.scalar "7")])]) "a.b").1 = true ∧
      (kmPut (YNode.map [("a", YNode.map [("b", YNode.scalar "7")])])
          "a.b" (YNode.scalar "42") false).ok = true ∧
      kmGet (kmPut (YNode.map [("a", YNode.map [("b", YNode.scalar "7")])])
          "a.b" (YNode.scalar "42") false).tree "a.b" = (true, some (YNode.scalar "42"))) :=
  ⟨(c2_get_after_put (YNode.map []) "a.b" (YNode.scalar "42")).1,
   rfl,
   (c2_get_after_put (YNode.map [("a", YNode.map [("b", YNode.scalar "7")])])
      "a.b" (YNode.scalar "42")).2 rfl⟩

/-- Claim C1: for every successful PUT at a dotted path p = k1.....kn,
the server enqueues for publication exactly one message per prefix of p
(topics k1, k1.k2, ..., up to p itself), each message carrying the
serialization of the tree node at that prefix, so a subscriber to any
prefix of p receives exactly one callback per put.  The enqueued list is
exactly one entry per prefix, in order, with pairwise distinct topics. -/
theorem c1_put_publish_fanout (t : YNode) (kc : String) (v : YNode)
    (cr : Bool) (ks : List String) (hroot : kc ≠ "Root") (hemp : kc ≠ "")
    (hsplit : splitDots kc = ks) (hok : (kmPut t kc v cr).ok = true) :
    (kmPut t kc v cr).msgs =
      (List.range ks.length).map (fun i =>
        (joinDots (ks.take (i + 1)),
         serialize ((getNodeSegs (kmPut t kc v cr).tree (ks.take (i + 1))).getD
           default))) ∧
    (∀ i, i < ks.length →
      (getNodeSegs (kmPut t kc v cr).tree (ks.take (i + 1))).isSome) ∧
    (∀ i j, i < j → j < ks.length →
      joinDots (ks.take (i + 1)) ≠ joinDots (ks.take (j + 1))) := by
  simp only [kmPut, put_yaml_node, if_neg hroot, if_neg hemp, hsplit] at hok ⊢
  cases hput : putNodeSegs t ks v cr with
  | none => rw [hput] at hok; simp at hok
  | some t' =>
      simp only [publishList, if_neg hemp, hsplit]
      have hsome : ∀ i, i < ks.length → (publishEntry t' ks i).isSome := by
        intro i _
        simp only [publishEntry, Option.isSome_map']
        exact getNodeSegs_putNodeSegs_take (i + 1) hput
      refine ⟨?_, ?_, ?_⟩
      · rw [filterMap_range_eq_map (publishEntry t' ks) ("", "") ks.length hsome]
        apply List.map_congr_left
        intro i hi
        rw [List.mem_range] at hi
        obtain ⟨n, hn⟩ := Option.isSome_iff_exists.mp
          (getNodeSegs_putNodeSegs_take (i + 1) hput)
        simp [publishEntry, hn]
      · intro i _
        exact getNodeSegs_putNodeSegs_take (i + 1) hput
      · intro i j hij hj heq
        have hlt := @joinDots_take_length_lt ks (i + 1) (j + 1)
          (Nat.succ_pos i) (by omega) (by omega)
        rw [heq] at hlt
        exact Nat.lt_irrefl _ hlt

theorem c1_put_publish_fanout_witness :
    ("a.b" ≠ "Root" ∧ "a.b" ≠ "" ∧ splitDots "a.b" = ["a", "b"] ∧
      (kmPut (YNode.map []) "a.b" (YNode.scalar "42") true).ok = true) ∧
    (kmPut (YNode.map []) "a.b" (YNode.scalar "42") true).msgs =
      (List.range (["a", "b"] : List String).length).map (fun i =>
        (joinDots ((["a", "b"] : List String).take (i + 1)),
         serialize ((getNodeSegs
           (kmPut (YNode.map []) "a.b" (YNode.scalar "42") true).tree
           ((["a", "b"] : List String).take (i + 1))).getD default))) :=
  ⟨⟨by decide, by decide, rfl, rfl⟩,
   (c1_put_publish_fanout (YNode.map []) "a.b" (YNode.scalar "42") true
      ["a", "b"] (by decide) (by decide) rfl rfl).1⟩

theorem splitChars_ne_nil (delim : Char) (cs acc : List Char) :
    splitChars delim cs acc ≠ [] := by
  induction cs generalizing acc with
  | nil => simp [splitChars]
  | cons c cs ih =>
      simp only [splitChars]
      by_cases h : c = delim
      · simp [h]
      · simpa [h] using ih (acc ++ [c])

/-- Claim C9: on a successful DEL of path p, the server publishes the
ancestors of p (each strict prefix of p with the serialization of that
surviving node) and does not publish a message for the deleted path p
itself; on a failed DEL the reply record has result false and nothing is
published. -/
theorem c9_del_publishes_ancestors_only (t : YNode) (kc : String)
    (ks : List String) (hemp : kc ≠ "") (hsplit : splitDots kc = ks)
    (hjoin : joinDots ks = kc) :
    ((kmDel t kc).ok = true →
      (kmDel t kc).msgs =
        (List.range (ks.length - 1)).map (fun i =>
          (joinDots (ks.take (i + 1)),
           serialize ((getNodeSegs (kmDel t kc).tree (ks.take (i + 1))).getD
             default))) ∧
      getNodeSegs (kmDel t kc).tree ks = none ∧
      (∀ p, p ∈ (kmDel t kc).msgs → p.1 ≠ kc)) ∧
    ((kmDel t kc).ok = false →
      (kmDel t kc).msgs = [] ∧ (kmDel t kc).tree = t) := by
  simp only [kmDel, delete_yaml_node, hsplit]
  cases hdel : delNodeSegs t ks with
  | none => simp
  | some t' =>
      simp only [true_and]
      have hne : ks ≠ [] := by
        rw [← hsplit]
        exact splitChars_ne_nil '.' kc.toList []
      have hlen : ks.length - 1 + 1 = ks.length := by
        cases ks with
        | nil => exact absurd rfl hne
        | cons a l => simp
      have hsome : ∀ i, i < ks.length - 1 → (publishEntry t' ks i).isSome := by
        intro i hi
        simp only [publishEntry, Option.isSome_map']
        exact getNodeSegs_delNodeSegs_take (i + 1) (by omega) hdel
      have hlast : publishEntry t' ks (ks.length - 1) = none := by
        simp only [publishEntry]
        rw [show ks.length - 1 + 1 = ks.length from hlen, List.take_length,
            getNodeSegs_delNodeSegs_gone hdel]
        rfl
      have hmsgs : publishList t' kc =
          (List.range (ks.length - 1)).map (fun i => (publishEntry t' ks i).getD ("", "")) := by
        simp only [publishList, if_neg hemp, hsplit]
        rw [← hlen, filterMap_range_succ_last_none (publishEntry t' ks) ("", "")
          (ks.length - 1) hsome hlast]
        simp
      constructor
      · intro _
        refine ⟨?_, getNodeSegs_delNodeSegs_gone hdel, ?_⟩
        · rw [hmsgs]
          apply List.map_congr_left
          intro i hi
          rw [List.mem_range] at hi
          obtain ⟨n, hn⟩ := Option.isSome_iff_exists.mp (hsome i hi)
          simp only [publishEntry, Option.map_eq_some'] at hn ⊢
          obtain ⟨u, hu, hp⟩ := hn
          simp [publishEntry, hu]
        · intro p hp
          rw [hmsgs] at hp
          simp only [List.mem_map, List.mem_range] at hp
          obtain ⟨i, hi, hpi⟩ := hp
          obtain ⟨n, hn⟩ := Option.isSome_iff_exists.mp (hsome i hi)
          have hn' := hn
          simp only [publishEntry, Option.map_eq_some'] at hn'
          obtain ⟨u, hu, hnu⟩ := hn'
          intro hcontr
          have hplen : (joinDots (ks.take (i + 1))).length < (joinDots ks).length := by
            apply joinDots_length_lt (Nat.succ_pos i)
            omega
          rw [← hpi, hn, Option.getD_some, ← hnu] at hcontr
          have heq : (joinDots (ks.take (i + 1))) = kc := by
            simpa using hcontr
          rw [heq, hjoin] at hplen
          exact Nat.lt_irrefl _ hplen
      · intro hfalse
        simp at hfalse

theorem c9_del_publishes_ancestors_only_witness :
    ("a.b" ≠ "" ∧ splitDots "a.b" = ["a", "b"] ∧ joinDots ["a", "b"] = "a.b" ∧
      (kmDel (YNode.map [("a", YNode.map [("b", YNode.scalar "1"),
        ("c", YNode.scalar "2")])]) "a.b").ok = true) ∧
    ((kmDel (YNode.map [("a", YNode.map [("b", YNode.scalar "1"),
        ("c", YNode.scalar "2")])]) "a.b").msgs =
      (List.range ((["a", "b"] : List String).length - 1)).map (fun i =>
        (joinDots ((["a", "b"] : List String).take (i + 1)),
         serialize ((getNodeSegs
           (kmDel (YNode.map [("a", YNode.map [("b", YNode.scalar "1"),
             ("c", YNode.scalar "2")])]) "a.b").tree
           ((["a", "b"] : List String).take (i + 1))).getD default))) ∧
      getNodeSegs (kmDel (YNode.map [("a", YNode.map [("b", YNode.scalar "1"),
        ("c", YNode.scalar "2")])]) "a.b").tree ["a", "b"] = none ∧
      (∀ p, p ∈ (kmDel (YNode.map [("a", YNode.map [("b", YNode.scalar "1"),
        ("c", YNode.scalar "2")])]) "a.b").msgs → p.1 ≠ "a.b")) :=
  ⟨⟨by decide, rfl, rfl, rfl⟩,
   (c9_del_publishes_ancestors_only
      (YNode.map [("a", YNode.map [("b", YNode.scalar "1"), ("c", YNode.scalar "2")])])
      "a.b" ["a", "b"] (by decide) rfl rfl).1 rfl⟩

theorem smRunPuts_cloned_flags (interval : Nat) (s : SMState)
    (reqs : List (String × YNode × Bool)) :
    (smRunPuts interval s reqs).map Prod.snd =
      (List.range reqs.length).map
        (fun i => ((s.putCounter + i + 1) % UINT_MOD % interval == 0)) := by
  induction reqs generalizing s with
  | nil => simp [smRunPuts]
  | cons r rs ih =>
      obtain ⟨kc, v, create⟩ := r
      simp only [smRunPuts, List.map_cons, List.length_cons,
        List.range_succ_eq_map, List.map_map]
      rw [List.cons_eq_cons]
      constructor
      · simp [smPutStep]
      · rw [ih]
        apply List.map_congr_left
        intro i _
        simp only [Function.comp, smPutStep]
        congr 1
        rw [Nat.add_assoc ((s.putCounter + 1) % UINT_MOD) i 1, Nat.mod_add_mod]
        have harith : s.putCounter + 1 + (i + 1) = s.putCounter + i.succ + 1 := by
          omega
        rw [harith]

/-- Claim C4 (amended): the state manager replaces its live root with a
deep clone exactly once every clone_interval well-formed PUT requests —
counting failed puts as well as successful ones — where clone_interval is
the configured Keymaster.clone_interval converted to unsigned if nonzero
and 1000 otherwise; the interval is fixed at startup and never retuned.
Starting from a fresh counter, the i-th request (0-based) clones exactly
when (i+1) mod 2^32 is a multiple of the interval. -/
theorem c4_clone_every_nth_request (c : Int) (t : YNode)
    (reqs : List (String × YNode × Bool)) :
    (smRunPuts (effCloneInterval c) ⟨t, 0⟩ reqs).map Prod.snd =
      (List.range reqs.length).map
        (fun i => ((i + 1) % UINT_MOD % effCloneInterval c == 0)) := by
  rw [smRunPuts_cloned_flags]
  apply List.map_congr_left
  intro i _
  norm_num

/-- Counterexample to claim C4 as stated: with `Keymaster.clone_interval`
configured as 2, the first request is a successful put (no clone) and the
second request is a failed put (no-create into a missing path) — yet the
clone fires on it, after only one successful put rather than two.  The
counter counts PUT attempts, not successful puts. -/
theorem c4_clone_counterexample :
    effCloneInterval 2 = 2 ∧
    smRunPuts (effCloneInterval 2) ⟨YNode.map [("a", YNode.scalar "1")], 0⟩
        [("a", YNode.scalar "2", false), ("b.c", YNode.scalar "3", false)] =
      [(true, false), (false, true)] := by
  constructor
  · decide
  · rfl

theorem hbWake_closed_form (start : Nat) (k : Nat) :
    hbWake start k = start + (k + 1) * one_sec := by
  induction k with
  | zero => simp [hbWake]
  | succ k ih => simp [hbWake, ih]; ring

/-- Claim C8: the sequence of values the heartbeat task writes to
Keymaster.heartbeat is monotonic non-decreasing — for any two writes the
later one carries a timestamp greater than or equal to the earlier one —
successive values are exactly one second (in nanoseconds) apart, and each
write is issued as a four-frame PUT with the create flag on the path
Keymaster.heartbeat. -/
theorem c8_heartbeat_monotone (start i j : Nat) (hij : i ≤ j) :
    hbWake start i ≤ hbWake start j ∧
    hbWake start (i + 1) = hbWake start i + one_sec ∧
    hbFrames start i =
      ["PUT", "Keymaster.heartbeat", toString (hbWake start i), "create"] := by
  refine ⟨?_, rfl, rfl⟩
  rw [hbWake_closed_form, hbWake_closed_form]
  have : (i + 1) * one_sec ≤ (j + 1) * one_sec :=
    Nat.mul_le_mul_right one_sec (by omega)
  omega

theorem c8_heartbeat_monotone_witness :
    (0 : Nat) ≤ 3 ∧
    (hbWake 1700000000000000000 0 ≤ hbWake 1700000000000000000 3 ∧
      hbWake 1700000000000000000 (0 + 1) = hbWake 1700000000000000000 0 + one_sec ∧
      hbFrames 1700000000000000000 0 =
        ["PUT", "Keymaster.heartbeat", toString (hbWake 1700000000000000000 0),
         "create"]) :=
  ⟨by decide, c8_heartbeat_monotone 1700000000000000000 0 3 (by decide)⟩

/-- Claim C7: the deferred-put worker memoizes the last value written per
path and skips the server RPC for a queued (path, value) tuple whose
value equals the memoized last value for that path; in particular,
enqueuing the same (path, value) pair twice back-to-back (when the value
is not already the memoized one) produces exactly one RPC to the
server. -/
theorem c7_put_task_dedup (s : PutTaskState) (p v : String) (c c' : Bool)
    (hmemo : alookup s.memo p ≠ some v) :
    (∀ (s' : PutTaskState) (q : String × String × Bool),
        alookup s'.memo q.1 = some q.2.1 → (putTaskStep s' q).2 = none) ∧
    (putTaskRun s [(p, v, c), (p, v, c')]).2.length = 1 := by
  constructor
  · intro s' q hq
    simp [putTaskStep, hq]
  · cases hm : alookup s.memo p with
    | none =>
        simp [putTaskRun, putTaskStep, hm, alookup_aupdate_self]
    | some m =>
        have hne : m ≠ v := by
          intro hmv
          rw [hmv] at hm
          exact hmemo hm
        simp [putTaskRun, putTaskStep, hm, hne, alookup_aupdate_self]

theorem c7_put_task_dedup_witness :
    (alookup (⟨[], false⟩ : PutTaskState).memo "STATUS.PACKETS" ≠ some "5") ∧
    (putTaskRun (⟨[], false⟩ : PutTaskState)
        [("STATUS.PACKETS", "5", true), ("STATUS.PACKETS", "5", true)]).2.length = 1 :=
  ⟨by decide,
   (c7_put_task_dedup ⟨[], false⟩ "STATUS.PACKETS" "5" true true (by decide)).2⟩

theorem length_filterMap_lt_of_none {α β : Type} (f : α → Option β) {l : List α}
    {x : α} (hx : x ∈ l) (hn : f x = none) :
    (l.filterMap f).length < l.length := by
  induction l with
  | nil => simp at hx
  | cons y ys ih =>
      rcases List.mem_cons.mp hx with hxy | hxys
      · subst hxy
        rw [List.filterMap_cons, hn]
        have := List.length_filterMap_le f ys
        simp only [List.length_cons]
        omega
      · rw [List.filterMap_cons]
        cases f y with
        | none =>
            have := ih hxys
            simp only [List.length_cons]
            omega
        | some b =>
            have := ih hxys
            simp only [List.length_cons]
            omega

theorem isSome_of_length_filterMap_eq {α β : Type} (f : α → Option β)
    {l : List α} (h : (l.filterMap f).length = l.length) :
    ∀ x ∈ l, (f x).isSome := by
  intro x hx
  by_contra hno
  have hnone : f x = none := Option.not_isSome_iff_eq_none.mp hno
  have := length_filterMap_lt_of_none f hx hnone
  omega

/-- Claim C6: creating a transport (server or client) fails by raising a
creation error, surfaced to the caller, whenever any requested URL scheme
has no registered factory, or when the schemes in one Specified list
resolve to different factories; no instance is created in either case. -/
theorem c6_creation_errors (factories cfactories : List (String × Nat))
    (specified : List String) (urn scheme : String) (rest : List String) :
    ((∃ s ∈ specified, alookup factories s = none) →
      isOkE (TransportServer.create factories specified) = false) ∧
    (∀ s1 s2 f1 f2, s1 ∈ specified → s2 ∈ specified →
      alookup factories s1 = some f1 → alookup factories s2 = some f2 →
      f1 ≠ f2 → isOkE (TransportServer.create factories specified) = false) ∧
    (splitColons urn = scheme :: rest → alookup cfactories scheme = none →
      isOkE (TransportClient.create cfactories urn) = false) := by
  refine ⟨?_, ?_, ?_⟩
  · intro ⟨s, hs, hnone⟩
    have hlt := length_filterMap_lt_of_none (fun t => alookup factories t) hs hnone
    simp only [TransportServer.create]
    rw [if_pos (by omega)]
    rfl
  · intro s1 s2 f1 f2 hs1 hs2 hf1 hf2 hne
    simp only [TransportServer.create]
    by_cases hlen :
        (specified.filterMap (fun t => alookup factories t)).length ≠ specified.length
    · rw [if_pos hlen]
      rfl
    · rw [if_neg hlen]
      have hall :
          (specified.filterMap (fun t => alookup factories t)).all
            (fun f => f == (specified.filterMap (fun t => alookup factories t)).headD 0)
          = false := by
        by_contra hcontra
        have hall' := Bool.not_eq_false _ |>.mp hcontra
        have hmem1 : f1 ∈ specified.filterMap (fun t => alookup factories t) :=
          List.mem_filterMap.mpr ⟨s1, hs1, hf1⟩
        have hmem2 : f2 ∈ specified.filterMap (fun t => alookup factories t) :=
          List.mem_filterMap.mpr ⟨s2, hs2, hf2⟩
        have h1 := List.all_eq_true.mp hall' f1 hmem1
        have h2 := List.all_eq_true.mp hall' f2 hmem2
        have e1 : f1 = (specified.filterMap (fun t => alookup factories t)).headD 0 := by
          simpa using h1
        have e2 : f2 = (specified.filterMap (fun t => alookup factories t)).headD 0 := by
          simpa using h2
        exact hne (e1.trans e2.symm)
      rw [if_pos (by rw [hall])]
      rfl
  · intro hsplit hnone
    simp [TransportClient.create, hsplit, hnone, isOkE]

theorem c6_creation_errors_witness :
    ((∃ s ∈ ["tcp", "ipc", "rtinproc"], alookup [("tcp", 0), ("ipc", 1)] s = none) ∧
      isOkE (TransportServer.create [("tcp", 0), ("ipc", 1)]
        ["tcp", "ipc", "rtinproc"]) = false) ∧
    ("tcp" ∈ ["tcp", "ipc", "rtinproc"] ∧ "ipc" ∈ ["tcp", "ipc", "rtinproc"] ∧
      alookup [("tcp", 0), ("ipc", 1)] "tcp" = some 0 ∧
      alookup [("tcp", 0), ("ipc", 1)] "ipc" = some 1 ∧ (0 : Nat) ≠ 1) ∧
    (splitColons "foo://x" = ["foo", "//x"] ∧
      alookup [("tcp", 0)] "foo" = none ∧
      isOkE (TransportClient.create [("tcp", 0)] "foo://x") = false) :=
  ⟨⟨by decide,
    (c6_creation_errors [("tcp", 0), ("ipc", 1)] [("tcp", 0)]
      ["tcp", "ipc", "rtinproc"] "foo://x" "foo" ["//x"]).1 (by decide)⟩,
   ⟨by decide, by decide, by decide, by decide, by decide⟩,
   by decide, by decide,
   (c6_creation_errors [("tcp", 0), ("ipc", 1)] [("tcp", 0)]
      ["tcp", "ipc", "rtinproc"] "foo://x" "foo" ["//x"]).2.2 (by decide) (by decide)⟩

theorem derivedPubs_mem {lcs pubs : List String}
    (h : derivedPubs lcs = some pubs) {lc : String} (hlc : lc ∈ lcs) :
    ∃ p, derivePub lc = some p ∧ p ∈ pubs := by
  induction lcs generalizing pubs with
  | nil => simp at hlc
  | cons u us ih =>
      simp only [derivedPubs] at h
      cases hd : derivePub u with
      | none => rw [hd] at h; simp at h
      | some p =>
          rw [hd] at h
          simp only [Option.map_eq_some'] at h
          obtain ⟨ps, hps, hcons⟩ := h
          subst hcons
          rcases List.mem_cons.mp hlc with heq | hmem
          · subst heq
            exact ⟨p, hd, List.mem_cons_self _ _⟩
          · obtain ⟨p', hp', hmem'⟩ := ih hps hmem
            exact ⟨p', hp', List.mem_cons_of_mem _ hmem'⟩

theorem derivedPubs_none {lcs : List String} {lc : String} (hlc : lc ∈ lcs)
    (hd : derivePub lc = none) : derivedPubs lcs = none := by
  induction lcs with
  | nil => simp at hlc
  | cons u us ih =>
      simp only [derivedPubs]
      rcases List.mem_cons.mp hlc with heq | hmem
      · subst heq
        rw [hd]
      · cases hdu : derivePub u with
        | none => rfl
        | some p => rw [ih hmem]; rfl

/-- Counterexample to claim C5 as stated: for the initial URL
tcp://spock:42000 the derived publish endpoint recorded by setup_urls is
tcp://*:42001 — the wildcard host, not the initial URL's host spock as
the claim requires (the host is discarded; bind_server later replaces the
wildcard with the local canonical hostname, which also need not be
spock). -/
theorem c5_counterexample :
    setup_urls ["tcp://spock:42000"] "r4nd0m" =
      some ⟨["tcp://spock:42000", "inproc://r4nd0m"], ["tcp://*:42001"]⟩ ∧
    ("tcp://*:42001" : String) ≠ "tcp://spock:42001" := by
  constructor
  · rfl
  · decide

/-- Claim C5 (amended): for every initial URL whose lowercasing contains
the substring "tcp", the derived publish endpoint is `tcp://*:<port+1>`
(wildcard host; the port is parsed from the last colon-separated field);
every other accepted URL contains the substring "ipc" or "inproc" and its
publish endpoint is the lowercased URL with ".publisher" appended; a URL
containing none of these substrings makes the constructor fail.  Scheme
matching is by substring search, not by URL scheme. -/
theorem c5_setup_urls_derivation (urls : List String) (rnd : String)
    (cfg : UrlConfig) :
    (setup_urls urls rnd = some cfg →
      ∀ u ∈ urls,
        (containsSub (strToLower u) "tcp" = true →
          ("tcp://*:" ++
            toString (convertInt ((splitColons (strToLower u)).getLastD "") + 1))
            ∈ cfg.pub) ∧
        (containsSub (strToLower u) "tcp" = false →
          (containsSub (strToLower u) "ipc" = true ∨
            containsSub (strToLower u) "inproc" = true) ∧
          (strToLower u ++ ".publisher") ∈ cfg.pub)) ∧
    (∀ u ∈ urls, derivePub (strToLower u) = none →
      setup_urls urls rnd = none) := by
  constructor
  · intro h u hu
    have hmem : strToLower u ∈ urls.map strToLower := List.mem_map_of_mem _ hu
    simp only [setup_urls] at h
    cases hd : derivedPubs (urls.map strToLower) with
    | none => rw [hd] at h; simp at h
    | some pubs =>
        rw [hd] at h
        simp only [Option.some.injEq] at h
        subst h
        obtain ⟨p, hp, hpm⟩ := derivedPubs_mem hd hmem
        constructor
        · intro htcp
          simp only [derivePub, htcp, if_true, Option.some.injEq] at hp
          subst hp
          simpa using hpm
        · intro htcp
          simp only [derivePub, htcp, Bool.false_eq_true, if_false] at hp
          by_cases hipc : containsSub (strToLower u) "ipc" = true
          · simp only [hipc, if_true, Option.some.injEq] at hp
            subst hp
            exact ⟨Or.inl hipc, by simpa using hpm⟩
          · simp only [Bool.not_eq_true] at hipc
            simp only [hipc, Bool.false_eq_true, if_false] at hp
            by_cases hinp : containsSub (strToLower u) "inproc" = true
            · simp only [hinp, if_true, Option.some.injEq] at hp
              subst hp
              exact ⟨Or.inr hinp, by simpa using hpm⟩
            · simp only [Bool.not_eq_true] at hinp
              simp only [hinp, Bool.false_eq_true, if_false] at hp
              exact absurd hp (by simp)
  · intro u hu hder
    simp only [setup_urls]
    rw [derivedPubs_none (List.mem_map_of_mem _ hu) hder]

theorem c5_setup_urls_derivation_witness :
    (setup_urls ["TCP://Spock:42000", "ipc:///tmp/km"] "r" =
      some ⟨["tcp://spock:42000", "ipc:///tmp/km", "inproc://r"],
            ["tcp://*:42001", "ipc:///tmp/km.publisher"]⟩) ∧
    (containsSub (strToLower "TCP://Spock:42000") "tcp" = true ∧
      ("tcp://*:" ++ toString (convertInt
        ((splitColons (strToLower "TCP://Spock:42000")).getLastD "") + 1)) ∈
        (⟨["tcp://spock:42000", "ipc:///tmp/km", "inproc://r"],
          ["tcp://*:42001", "ipc:///tmp/km.publisher"]⟩ : UrlConfig).pub) ∧
    (containsSub (strToLower "ipc:///tmp/km") "tcp" = false ∧
      (containsSub (strToLower "ipc:///tmp/km") "ipc" = true ∨
        containsSub (strToLower "ipc:///tmp/km") "inproc" = true) ∧
      (strToLower "ipc:///tmp/km" ++ ".publisher") ∈
        (⟨["tcp://spock:42000", "ipc:///tmp/km", "inproc://r"],
          ["tcp://*:42001", "ipc:///tmp/km.publisher"]⟩ : UrlConfig).pub) :=
  ⟨rfl,
   ⟨by decide,
    ((c5_setup_urls_derivation ["TCP://Spock:42000", "ipc:///tmp/km"] "r"
        ⟨["tcp://spock:42000", "ipc:///tmp/km", "inproc://r"],
         ["tcp://*:42001", "ipc:///tmp/km.publisher"]⟩).1 rfl
      "TCP://Spock:42000" (by decide)).1 (by decide)⟩,
   ⟨by decide,
    ((c5_setup_urls_derivation ["TCP://Spock:42000", "ipc:///tmp/km"] "r"
        ⟨["tcp://spock:42000", "ipc:///tmp/km", "inproc://r"],
         ["tcp://*:42001", "ipc:///tmp/km.publisher"]⟩).1 rfl
      "ipc:///tmp/km" (by decide)).2 (by decide)⟩⟩

theorem containsSub_inproc_gen (rnd : String) :
    containsSub ("inproc://" ++ rnd) "inproc" = true := by
  apply List.any_eq_true.mpr
  refine ⟨("inproc://" ++ rnd).toList, ?_, ?_⟩
  · exact (List.mem_tails _ _).mpr (List.suffix_refl _)
  · have hchars : ("inproc://" ++ rnd).toList =
        "inproc".toList ++ ("://" ++ rnd).toList := by
      have h1 : ("inproc://" ++ rnd) = "inproc" ++ ("://" ++ rnd) := by
        rw [← String.append_assoc]
        rfl
      rw [h1]
      simp [String.toList, String.data_append]
    rw [hchars]
    exact List.isPrefixOf_iff_prefix.mpr (List.prefix_append _ _)

/-- Counterexample to claim C10 as stated: with the single initial URL
tcp://inproc.example.com:42000 — a TCP endpoint whose host name merely
contains the substring "inproc" — setup_urls keeps the state-service URL
list as just that TCP URL and appends no generated inproc URL, because
its fallback test is a substring search; the resulting list contains no
inproc:// endpoint at all. -/
theorem c10_counterexample :
    setup_urls ["tcp://inproc.example.com:42000"] "r4nd0m" =
      some ⟨["tcp://inproc.example.com:42000"], ["tcp://*:42001"]⟩ ∧
    (⟨["tcp://inproc.example.com:42000"], ["tcp://*:42001"]⟩ : UrlConfig).state.all
      (fun u => !(isInprocEndpoint u)) = true := by
  constructor
  · rfl
  · decide

/-- Claim C10 (amended): after setup_urls runs, the state-service URL
list always contains at least one URL containing the substring "inproc":
if no lowercased initial URL contains that substring, a randomly named
inproc:// URL is appended for the heartbeat task's use. -/
theorem c10_state_urls_contain_inproc (urls : List String) (rnd : String)
    (cfg : UrlConfig) (h : setup_urls urls rnd = some cfg) :
    ∃ u ∈ cfg.state, containsSub u "inproc" = true := by
  simp only [setup_urls] at h
  cases hd : derivedPubs (urls.map strToLower) with
  | none => rw [hd] at h; simp at h
  | some pubs =>
      rw [hd] at h
      simp only [Option.some.injEq] at h
      subst h
      by_cases hany : ((urls.map strToLower).any fun u => containsSub u "inproc") = true
      · obtain ⟨u, hu, hc⟩ := List.any_eq_true.mp hany
        exact ⟨u, by simpa [hany] using hu, hc⟩
      · refine ⟨"inproc://" ++ rnd, ?_, containsSub_inproc_gen rnd⟩
        simp only [Bool.not_eq_true] at hany
        simp [hany]

theorem c10_state_urls_contain_inproc_witness :
    setup_urls ["tcp://spock:42000"] "r4nd0m" =
      some ⟨["tcp://spock:42000", "inproc://r4nd0m"], ["tcp://*:42001"]⟩ ∧
    (∃ u ∈ (⟨["tcp://spock:42000", "inproc://r4nd0m"],
        ["tcp://*:42001"]⟩ : UrlConfig).state, containsSub u "inproc" = true) :=
  ⟨rfl,
   c10_state_urls_contain_inproc ["tcp://spock:42000"] "r4nd0m"
     ⟨["tcp://spock:42000", "inproc://r4nd0m"], ["tcp://*:42001"]⟩ rfl⟩

/-- Claim C3 evaluated at a failing input (code bug): two consumers
acquire the same transport for the same key and receive the same
instance; after only the FIRST consumer releases, the registry entry is
already gone — `release_transport` erases it outside its `unique()`
check — so a third `get_transport` for the same key constructs a fresh
instance (a different id) even though the second consumer still holds the
old one (its use count is still 1).  This happens identically in the
client registry (keyed by urn) and in the server registry (keyed by
component and transport name), contradicting both the claim and the
functions' own doc comments. -/
theorem c3_entry_erased_on_first_release :
    (let g1 := TransportClient.get_transport ⟨[], [], 0⟩ "tcp://h:1"
     let g2 := TransportClient.get_transport g1.1 "tcp://h:1"
     let r3 := TransportClient.consumerRelease g2.1 "tcp://h:1" g2.2
     let g4 := TransportClient.get_transport r3 "tcp://h:1"
     g1.2 = g2.2 ∧ rcGet r3.refc g2.2 = 1 ∧ alookup r3.entries "tcp://h:1" = none ∧
       g4.2 ≠ g2.2 ∧ rcGet g4.1.refc g2.2 = 1) ∧
    (let s1 := TransportServer.get_transport ⟨[], [], 0⟩ "nettask" "A"
     let s2 := TransportServer.get_transport s1.1 "nettask" "A"
     let t3 := TransportServer.consumerRelease s2.1 "nettask" "A" s2.2
     let s4 := TransportServer.get_transport t3 "nettask" "A"
     s1.2 = s2.2 ∧ rcGet t3.refc s2.2 = 1 ∧
       s4.2 ≠ s2.2 ∧ rcGet s4.1.refc s2.2 = 1) := by
  constructor
  · exact ⟨rfl, rfl, rfl, by decide, rfl⟩
  · exact ⟨rfl, rfl, by decide, rfl⟩
